import Mathlib

/-!
Verification of the trendline detection, clustering and scoring engine of
the quant-trad repository, modelled over exact rational arithmetic.

Sources embedded here:
* `src/src/indicators/trendline.py` — pivot extraction (`_find_pivots`,
  `_collect_pivots`), the 2-point RANSAC fitter (`_ransac_line`), envelope
  adjustment (`_fit_envelope` and the inline envelope step of
  `_compute_pivot_ransac`), break detection (`_first_break`), segment
  bounds, and the full `pivot_ransac` pipeline run by the constructor.
* `src/classes/Trendline.py` — the composite quality score
  (`_calculate_score`).
* `src/classes/TrendlineAnalyzer.py` — pairwise line parameters
  (`_calculate_line_parameters`), the point-on-line test
  (`_point_on_line`, whose division can raise `ZeroDivisionError`,
  modelled with `Except`), and the overlap-based duplicate suppression
  inside `analyze`.

Bar timestamps are modelled by bar positions (the input index is strictly
increasing with no duplicates, per the caller contract), prices by `ℚ`,
and the unseeded numpy generator by an explicit stream of sampled index
pairs.
-/

namespace QuantTrad

/-- Guard constant 1e-9 used by the source as a division floor. -/
def epsQ : ℚ := 1 / 1000000000

/-- Module constant `BREAK_TOL_FRAC = 0.0015`. -/
def breakTolFrac : ℚ := 3 / 2000

/-- Module constant `SLOPE_EPS = 1e-6`. -/
def slopeEps : ℚ := 1 / 1000000

/-- Mean of a list of rationals (`np.mean`). -/
def meanQ (l : List ℚ) : ℚ := l.sum / (l.length : ℚ)

/-- Least element of a nonempty list (`np.min`); 0 on the empty list,
which the source never reaches. -/
def minListQ : List ℚ → ℚ
  | [] => 0
  | h :: t => t.foldl min h

/-- Greatest element of a nonempty list (`np.max`); 0 on the empty list,
which the source never reaches. -/
def maxListQ : List ℚ → ℚ
  | [] => 0
  | h :: t => t.foldl max h

/-- Ordinary least squares slope of `ys` against `xs`: the degree-1
coefficient returned by `np.polyfit(x, y, 1)`. -/
def olsSlope (xs ys : List ℚ) : ℚ :=
  let n : ℚ := (xs.length : ℚ)
  let sx := xs.sum
  let sy := ys.sum
  let sxy := (List.zipWith (fun a b => a * b) xs ys).sum
  let sxx := (xs.map (fun v => v * v)).sum
  (n * sxy - sx * sy) / (n * sxx - sx * sx)

/-- Element of a price column at bar `i` (`series.iat[i]`). -/
def priceAt (l : List ℚ) (i : ℕ) : ℚ := l.getD i 0

/-! ## Composite quality score — `Trendline._calculate_score` -/

/-- Composite score of `classes/Trendline.py::_calculate_score`, as a
function of the metrics the method reads from the instance:
`r_squared`, `len(self.points)`, `length` (days), `angle` (degrees),
`proximity` and `violation_ratio`.  Weights are r²: 0.1, points: 0.4,
length: 0.3, angle: 0.2; `points` enters as `len(points) / 10` (no
normalisation), the proximity penalty halves, the violation penalties
halve and zero the score; no final clamp is applied. -/
def calculateScore (r2 : ℚ) (nPoints : ℕ) (length : ℤ) (angle prox vr : ℚ) : ℚ :=
  let normLen : ℚ := min 1 ((length : ℚ) / 365)
  let normAngle : ℚ := 1 - min (|angle - 45| / 45) 1
  let base : ℚ :=
    (1/10) * r2 + (2/5) * ((nPoints : ℚ) / 10) + (3/10) * normLen + (1/5) * normAngle
  let s1 : ℚ := if 1/100 < prox then base * (1/2) else base
  let s2 : ℚ := if 1/4 < vr then s1 * (1/2) else s1
  if 1/2 < vr then 0 else s2

/-! ## Pairwise path — `TrendlineAnalyzer` -/

/-- `TrendlineAnalyzer._calculate_line_parameters`: slope and intercept of
the line through `(t1, p1)` and `(t2, p2)`; `none` when the two
timestamps coincide (the caller skips the pair). -/
def calculateLineParameters (t1 p1 t2 p2 : ℚ) : Option (ℚ × ℚ) :=
  if t2 = t1 then none
  else
    let slope := (p2 - p1) / (t2 - t1)
    some (slope, p1 - slope * t1)

/-- `TrendlineAnalyzer._point_on_line`: relative-error membership test of
a pivot on a candidate line.  The source divides by `price` with no
guard, so a zero price raises `ZeroDivisionError`, modelled as
`Except.error`. -/
def pointOnLine (tol slope intercept t price : ℚ) : Except Unit Bool :=
  if price = 0 then Except.error ()
  else Except.ok (decide (|(slope * t + intercept - price) / price| ≤ tol))

/-- A candidate line as seen by the duplicate-suppression step of
`TrendlineAnalyzer.analyze`: its set of covered points and its score. -/
structure Cand where
  points : Finset (ℚ × ℚ)
  score : ℚ
  deriving DecidableEq

/-- Shared-point fraction used by `analyze`:
`len(set(tl.points) & set(existing.points)) / len(tl.points)` — the
denominator is the NEW line's point count. -/
def overlapFrac (tl e : Cand) : ℚ :=
  ((tl.points ∩ e.points).card : ℚ) / (tl.points.card : ℚ)

/-- The accumulation loop of `TrendlineAnalyzer.analyze` over candidate
lines in discovery order: a candidate is appended iff its overlap with
every already-kept line is at most 10% and its score exceeds the
threshold. -/
def analyzeKept (minScore : ℚ) (cands : List Cand) : List Cand :=
  cands.foldl
    (fun kept tl =>
      if kept.all (fun e => decide (overlapFrac tl e ≤ 1/10)) then
        (if decide (minScore < tl.score) then kept ++ [tl] else kept)
      else kept)
    []

/-! ## Pivot extraction — `TrendlineIndicator._find_pivots` -/

/-- One OHLC series; bar `i`'s timestamp is its position `i`. -/
structure PriceSeries where
  high : List ℚ
  low : List ℚ
  close : List ℚ
  deriving DecidableEq

/-- The rolling window `[i-lb, i+lb]` with the centre bar dropped
(`.iloc[i-lookback:i+lookback+1].drop(ts)`). -/
def windowExcl (xs : List ℚ) (i lb : ℕ) : List ℚ :=
  ((xs.drop (i - lb)).take lb) ++ ((xs.drop (i + 1)).take lb)

/-- The `near_any` dedup test of `_find_pivots`: the new price is within
`frac` (relative, floored denominator) of some accepted pivot price. -/
def nearAnyQ (frac px : ℚ) (prices : List ℚ) : Bool :=
  prices.any (fun p => decide (|px - p| / max p epsQ < frac))

/-- An accepted pivot: kind, bar position, price. -/
structure PivotRec where
  isHigh : Bool
  idx : ℕ
  px : ℚ
  deriving DecidableEq

/-- Prices of all pivots accepted so far (`highs + lows`). -/
def recPrices (acc : List PivotRec) : List ℚ := acc.map PivotRec.px

/-- Strict local-maximum test of bar `i`'s high against its window. -/
def isLocalMax (highs : List ℚ) (i lb : ℕ) : Bool :=
  match (windowExcl highs i lb).max? with
  | some M => decide (M < priceAt highs i)
  | none => false

/-- Strict local-minimum test of bar `i`'s low against its window. -/
def isLocalMin (lows : List ℚ) (i lb : ℕ) : Bool :=
  match (windowExcl lows i lb).min? with
  | some M => decide (priceAt lows i < M)
  | none => false

/-- The high test of the `_find_pivots` loop at bar `i`, which runs
first: append a high pivot iff the bar is a strict local max and its
high passes the dedup gate. -/
def pivotHighPass (s : PriceSeries) (frac : ℚ) (lb : ℕ) (acc : List PivotRec)
    (i : ℕ) : List PivotRec :=
  if isLocalMax s.high i lb && !nearAnyQ frac (priceAt s.high i) (recPrices acc) then
    acc ++ [⟨true, i, priceAt s.high i⟩]
  else acc

/-- One iteration of the `_find_pivots` loop at bar `i`: the high test
runs first; the low test runs afterwards in a separate `if`, its dedup
check seeing any high just accepted at this same bar. -/
def pivotStep (s : PriceSeries) (frac : ℚ) (lb : ℕ) (acc : List PivotRec) (i : ℕ) :
    List PivotRec :=
  if isLocalMin s.low i lb &&
      !nearAnyQ frac (priceAt s.low i) (recPrices (pivotHighPass s frac lb acc i)) then
    pivotHighPass s frac lb acc i ++ [⟨false, i, priceAt s.low i⟩]
  else pivotHighPass s frac lb acc i

/-- The whole `_find_pivots` scan for one lookback, in acceptance order:
bars `lookback ≤ i < n - lookback`. -/
def pivotScan (s : PriceSeries) (frac : ℚ) (lb : ℕ) : List PivotRec :=
  (List.range' lb (s.high.length - 2 * lb)).foldl (pivotStep s frac lb) []

/-- `_find_pivots`: the accepted `(position, price)` lists, highs then
lows, each in bar order. -/
def findPivots (s : PriceSeries) (frac : ℚ) (lb : ℕ) :
    List (ℕ × ℚ) × List (ℕ × ℚ) :=
  let acc := pivotScan s frac lb
  ((acc.filter (fun r => r.isHigh)).map (fun r => (r.idx, r.px)),
   (acc.filter (fun r => !r.isHigh)).map (fun r => (r.idx, r.px)))

/-- Stable insert for sorting pivots by bar position (`list.sort` with
`key=lambda x: x[0]` is stable). -/
def insertByIdx (a : ℕ × ℚ) : List (ℕ × ℚ) → List (ℕ × ℚ)
  | [] => [a]
  | b :: t => if b.1 < a.1 then b :: insertByIdx a t else a :: b :: t

/-- Stable sort of pivots by bar position. -/
def sortByIdx (l : List (ℕ × ℚ)) : List (ℕ × ℚ) := l.foldr insertByIdx []

/-- `_collect_pivots`: pivots of every configured lookback are
concatenated — with no dedup across lookbacks — and sorted by time. -/
def collectPivots (s : PriceSeries) (frac : ℚ) (lbs : List ℕ) :
    List (ℕ × ℚ) × List (ℕ × ℚ) :=
  let hs := (lbs.map (fun lb => (findPivots s frac lb).1)).flatten
  let ls := (lbs.map (fun lb => (findPivots s frac lb).2)).flatten
  (sortByIdx hs, sortByIdx ls)

/-! ## RANSAC — `_ransac_line` -/

/-- Relative residual of `(x, y)` against the line `(m, c)`:
`|y - yhat| / max(|yhat|, 1e-9)`. -/
def residQ (m c x y : ℚ) : ℚ :=
  |y - (m * x + c)| / max |m * x + c| epsQ

/-- Inlier mask of the point lists against a line
(`resid <= tol_frac`). -/
def inlierMask (x y : List ℚ) (m c tol : ℚ) : List Bool :=
  (x.zip y).map (fun p => decide (residQ m c p.1 p.2 ≤ tol))

/-- Number of `true` entries of a mask (`mask.sum()`). -/
def countTrue (l : List Bool) : ℕ := l.countP id

/-- Entries of `v` selected by a boolean mask (`v[mask]`). -/
def maskSelect {α : Type} (mask : List Bool) (v : List α) : List α :=
  ((mask.zip v).filter (fun p => p.1)).map (fun p => p.2)

/-- The 2-point line of one RANSAC trial from the sampled index pair
`d = (i, j)`; `none` when `x[j] == x[i]` (the loop `continue`s). -/
def trialLine (x y : List ℚ) (d : ℕ × ℕ) : Option (ℚ × ℚ) :=
  let xi := x.getD d.1 0
  let xj := x.getD d.2 0
  if xj = xi then none
  else
    let m := (y.getD d.2 0 - y.getD d.1 0) / (xj - xi)
    some (m, y.getD d.1 0 - m * xi)

/-- Best-so-far state of the trial loop: the stored `(m, c, mask)` and
its inlier count (`best`, `best_count`). -/
structure BestState where
  best : Option (ℚ × ℚ × List Bool)
  cnt : ℕ
  deriving DecidableEq

/-- One iteration of the trial loop: evaluate the sampled 2-point line
and keep it iff its inlier count strictly beats the best so far. -/
def ransacStep (x y : List ℚ) (tol : ℚ) (st : BestState) (d : ℕ × ℕ) : BestState :=
  match trialLine x y d with
  | none => st
  | some (m, c) =>
    let mask := inlierMask x y m c tol
    if st.cnt < countTrue mask then ⟨some (m, c, mask), countTrue mask⟩ else st

/-- The whole trial loop over the drawn sample pairs. -/
def ransacBest (x y : List ℚ) (tol : ℚ) (ds : List (ℕ × ℕ)) : BestState :=
  ds.foldl (ransacStep x y tol) ⟨none, 0⟩

/-- OLS refit of `_ransac_line` on the masked inliers:
`m_ref = np.polyfit(xi, yi, 1)[0]`, `c_ref = np.mean(yi - m_ref * xi)`.
The kept mask is returned unchanged. -/
def ransacRefine (x y : List ℚ) (mask : List Bool) : ℚ × ℚ × List Bool :=
  let xi := maskSelect mask x
  let yi := maskSelect mask y
  let m := olsSlope xi yi
  (m, meanQ (List.zipWith (fun yv xv => yv - m * xv) yi xi), mask)

/-- `_ransac_line` on an explicit, already-truncated draw stream. -/
def ransacLineCore (x y : List ℚ) (tol : ℚ) (minInliers : ℕ) (ds : List (ℕ × ℕ)) :
    Option (ℚ × ℚ × List Bool) :=
  if x.length < 2 then none
  else
    let st := ransacBest x y tol ds
    if st.cnt < minInliers then none
    else
      match st.best with
      | none => none
      | some (_, _, mask) => some (ransacRefine x y mask)

/-- `_ransac_line(x, y, trials, tol_frac, min_inliers)`: the ambient
generator is modelled by the stream `draws` of sampled index pairs, of
which one is consumed per trial. -/
def ransacLine (x y : List ℚ) (trials : ℕ) (tol : ℚ) (minInliers : ℕ)
    (draws : List (ℕ × ℕ)) : Option (ℚ × ℚ × List Bool) :=
  ransacLineCore x y tol minInliers (draws.take trials)

/-! ## Envelope adjustment and break detection -/

/-- Envelope intercept over the covered points: the `c` candidates are
`y_k - m * x_k`; resistance takes their minimum (`line <= highs`),
support their maximum (`line >= lows`). -/
def envelopeIntercept (isRes : Bool) (m : ℚ) (xs ys : List ℚ) : ℚ :=
  let cvec := List.zipWith (fun x yv => yv - m * x) xs ys
  if isRes then minListQ cvec else maxListQ cvec

/-- `_fit_envelope`: OLS slope over the window pivots, then the envelope
shift of the intercept; the slope is returned unchanged. -/
def fitEnvelope (isRes : Bool) (xs ys : List ℚ) : ℚ × ℚ :=
  let m := olsSlope xs ys
  (m, envelopeIntercept isRes m xs ys)

/-- Decisive-breach test of bar `i` against the line values:
`high[i] > line[i] * (1 + tol)` for resistance,
`low[i] < line[i] * (1 - tol)` for support. -/
def breachAt (isRes : Bool) (line lowCol highCol : List ℚ) (i : ℕ) : Bool :=
  if isRes then decide (priceAt line i * (1 + breakTolFrac) < priceAt highCol i)
  else decide (priceAt lowCol i < priceAt line i * (1 - breakTolFrac))

/-- `_first_break`: position of the first decisive breach at or after
`start`, scanning to the end of the series; `none` if the line is
unbroken. -/
def firstBreak (isRes : Bool) (line lowCol highCol : List ℚ) (start : ℕ) : Option ℕ :=
  (List.range' start (line.length - start)).find? (breachAt isRes line lowCol highCol)

/-- Segment bound of `_compute_pivot_ransac`:
`seg_to = break_i if break_i is not None and break_i > seg_from else last`. -/
def segTo (br : Option ℕ) (segFrom last : ℕ) : ℕ :=
  match br with
  | some b => if segFrom < b then b else last
  | none => last

/-- Whole-number rational to natural (`astype(int)` on pivot positions). -/
def qToNat (q : ℚ) : ℕ := q.num.toNat

/-- The stored solid-segment end of a `pivot_ransac` line:
`seg_from = in_idx.min()`, `seg_to` bounded by the first break, and
`solid_to = min(seg_to, in_idx.max())`. -/
def ransacSolidEnd (isRes : Bool) (line lowCol highCol : List ℚ) (inIdx : List ℕ) : ℕ :=
  let segFrom := (inIdx.map (Nat.cast (R := ℚ))).foldr min ((inIdx.headD 0 : ℕ) : ℚ)
  let last := line.length - 1
  let st := segTo (firstBreak isRes line lowCol highCol (qToNat segFrom)) (qToNat segFrom) last
  min st (qToNat ((inIdx.map (Nat.cast (R := ℚ))).foldr max ((inIdx.headD 0 : ℕ) : ℚ)))

/-! ## The `pivot_ransac` pipeline — `_compute_pivot_ransac` -/

/-- Constructor parameters of `TrendlineIndicator` used by the
`pivot_ransac` path. -/
structure TLConfig where
  lookbacks : List ℕ
  pivotDedupeFrac : ℚ
  minSpanBars : ℕ
  projectionBars : ℕ
  ransacTrials : ℕ
  ransacTolFrac : ℚ
  ransacMinInliers : ℕ
  maxLinesPerSide : ℕ
  enforceDirection : Bool
  deriving DecidableEq

/-- One output line record of the `pivot_ransac` path
(`side, m, c, i_from, i_solid, i_proj, touches`). -/
structure TLLine where
  isRes : Bool
  m : ℚ
  c : ℚ
  iFrom : ℕ
  iSolid : ℕ
  iProj : ℕ
  touches : List ℕ
  deriving DecidableEq

/-- Line values over every bar position (`line = m * xs + c`). -/
def lineList (m c : ℚ) (n : ℕ) : List ℚ :=
  (List.range n).map (fun i => m * (i : ℚ) + c)

/-- One sequential-extraction round of `_compute_pivot_ransac` for one
side, with `fuel` the remaining `max_lines_per_side` iterations and
`draws` the ambient sample stream.  Returns the accumulated lines and
the unconsumed stream. -/
def sideRounds (s : PriceSeries) (cfg : TLConfig) (isRes : Bool)
    (X Y : List ℚ) : ℕ → List Bool → List (ℕ × ℕ) → List TLLine →
    List TLLine × List (ℕ × ℕ)
  | 0, _, draws, acc => (acc, draws)
  | fuel + 1, used, draws, acc =>
    let availMask := used.map (fun u => !u)
    if countTrue availMask < cfg.ransacMinInliers then (acc, draws)
    else
      let xw := maskSelect availMask X
      let yw := maskSelect availMask Y
      if maxListQ xw - minListQ xw < (cfg.minSpanBars : ℚ) then (acc, draws)
      else
        match ransacLine xw yw cfg.ransacTrials cfg.ransacTolFrac
            cfg.ransacMinInliers draws with
        | none => (acc, draws)
        | some (mHat, _cHat, inMask) =>
          let draws' := draws.drop cfg.ransacTrials
          let inXs := maskSelect inMask xw
          let c := envelopeIntercept isRes mHat (maskSelect inMask xw) (maskSelect inMask yw)
          let m := mHat
          let n := s.high.length
          let line := lineList m c n
          let last := n - 1
          let segFrom := qToNat (minListQ inXs)
          let sTo := segTo (firstBreak isRes line s.low s.high segFrom) segFrom last
          let used' := List.zipWith (fun u xv => u || inXs.contains xv) used X
          let localM := olsSlope
            ((List.range' segFrom (sTo + 1 - segFrom)).map (fun i => (i : ℚ)))
            ((s.close.drop segFrom).take (sTo + 1 - segFrom))
          if cfg.enforceDirection && decide (segFrom < sTo) &&
              ((decide (m < -slopeEps) && decide (-slopeEps ≤ localM)) ||
               (decide (slopeEps < m) && decide (localM ≤ slopeEps))) then
            sideRounds s cfg isRes X Y fuel used' draws' acc
          else
            let solidTo := min sTo (qToNat (maxListQ inXs))
            let projTo := min last (solidTo + cfg.projectionBars)
            let touchIs := (List.range' segFrom (solidTo + 1 - segFrom)).filter
              (fun i => decide (priceAt s.low i ≤ priceAt line i) &&
                        decide (priceAt line i ≤ priceAt s.high i))
            sideRounds s cfg isRes X Y fuel used' draws'
              (acc ++ [⟨isRes, m, c, segFrom, solidTo, projTo, touchIs⟩])

/-- Stable insert for the per-side recency sort
(`sort(key=lambda d: d["i_from"], reverse=True)`). -/
def insertByFromDesc (a : TLLine) : List TLLine → List TLLine
  | [] => [a]
  | b :: t => if a.iFrom < b.iFrom then b :: insertByFromDesc a t else a :: b :: t

/-- Stable descending sort of a side's lines by `i_from`. -/
def sortByFromDesc (l : List TLLine) : List TLLine := l.foldr insertByFromDesc []

/-- One side of `_compute_pivot_ransac`: sequential RANSAC over the
side's pivots, then the recency sort. -/
def computeSide (s : PriceSeries) (cfg : TLConfig) (isRes : Bool)
    (piv : List (ℕ × ℚ)) (draws : List (ℕ × ℕ)) : List TLLine × List (ℕ × ℕ) :=
  let X := piv.map (fun p => ((p.1 : ℚ)))
  let Y := piv.map (fun p => p.2)
  let r := sideRounds s cfg isRes X Y cfg.maxLinesPerSide (X.map (fun _ => false)) draws []
  (sortByFromDesc r.1, r.2)

/-- `_compute_pivot_ransac`: collect pivots, then extract lines for the
resistance side (high pivots) and the support side (low pivots), in that
order, threading the ambient draw stream through both. -/
def computePivotRansac (s : PriceSeries) (cfg : TLConfig) (draws : List (ℕ × ℕ)) :
    List TLLine :=
  let piv := collectPivots s cfg.pivotDedupeFrac cfg.lookbacks
  let res := computeSide s cfg true piv.1 draws
  let sup := computeSide s cfg false piv.2 res.2
  res.1 ++ sup.1

/-! ## Constructor frame model — `TrendlineIndicator.__init__` -/

/-- A heap of DataFrame objects; a caller's DataFrame is a reference
(index) into it. -/
structure Store where
  cells : List PriceSeries

/-- `df.copy()`: allocate a fresh cell holding the same values and
return its reference. -/
def dfCopy (st : Store) (r : ℕ) : Store × ℕ :=
  (⟨st.cells ++ [st.cells.getD r ⟨[], [], []⟩]⟩, st.cells.length)

/-- Engine state after construction: the reference to its private copy
and the computed lines. -/
structure Engine where
  dfRef : ℕ
  lines : List TLLine

/-- `TrendlineIndicator.__init__` on the `pivot_ransac` path:
`self.df = df.copy()`, then `self._compute()`, which only reads the
copy.  Returns the heap after construction and the engine state. -/
def trendlineInit (st : Store) (r : ℕ) (cfg : TLConfig) (draws : List (ℕ × ℕ)) :
    Store × Engine :=
  let p := dfCopy st r
  let s := p.1.cells.getD p.2 ⟨[], [], []⟩
  (p.1, ⟨p.2, computePivotRansac s cfg draws⟩)

/-! ## Helper lemmas -/

/-- A left fold of `min` is below every listed element. -/
lemma foldl_min_le (t : List ℚ) : ∀ a x : ℚ, x ∈ a :: t → t.foldl min a ≤ x := by
  induction t with
  | nil =>
    intro a x hx
    simp only [List.mem_singleton] at hx
    simp [hx]
  | cons b t ih =>
    intro a x hx
    have hfold : (b :: t).foldl min a = t.foldl min (min a b) := rfl
    rw [hfold]
    have h3 := ih (min a b) (min a b) (List.mem_cons_self _ _)
    rcases List.mem_cons.mp hx with h1 | h2
    · rw [h1]
      exact le_trans h3 (min_le_left _ _)
    · rcases List.mem_cons.mp h2 with h4 | h5
      · rw [h4]
        exact le_trans h3 (min_le_right _ _)
      · exact ih (min a b) x (List.mem_cons_of_mem _ h5)

/-- A left fold of `max` is above every listed element. -/
lemma le_foldl_max (t : List ℚ) : ∀ a x : ℚ, x ∈ a :: t → x ≤ t.foldl max a := by
  induction t with
  | nil =>
    intro a x hx
    simp only [List.mem_singleton] at hx
    simp [hx]
  | cons b t ih =>
    intro a x hx
    have hfold : (b :: t).foldl max a = t.foldl max (max a b) := rfl
    rw [hfold]
    have h3 := ih (max a b) (max a b) (List.mem_cons_self _ _)
    rcases List.mem_cons.mp hx with h1 | h2
    · rw [h1]
      exact le_trans (le_max_left _ _) h3
    · rcases List.mem_cons.mp h2 with h4 | h5
      · rw [h4]
        exact le_trans (le_max_right _ _) h3
      · exact ih (max a b) x (List.mem_cons_of_mem _ h5)

/-- `minListQ` bounds every element of a list from below. -/
lemma minListQ_le {l : List ℚ} {x : ℚ} (hx : x ∈ l) : minListQ l ≤ x := by
  cases l with
  | nil => cases hx
  | cons h t => exact foldl_min_le t h x hx

/-- `maxListQ` bounds every element of a list from above. -/
lemma le_maxListQ {l : List ℚ} {x : ℚ} (hx : x ∈ l) : x ≤ maxListQ l := by
  cases l with
  | nil => cases hx
  | cons h t => exact le_foldl_max t h x hx

/-- Full characterisation of `find?` over a contiguous index range: a hit
is the least index satisfying the predicate, and a miss means no index in
the range satisfies it. -/
lemma find?_range'_spec (p : ℕ → Bool) :
    ∀ k s : ℕ,
      ((List.range' s k).find? p = none →
        ∀ i, s ≤ i → i < s + k → p i = false) ∧
      (∀ b, (List.range' s k).find? p = some b →
        s ≤ b ∧ b < s + k ∧ p b = true ∧ ∀ i, s ≤ i → i < b → p i = false) := by
  intro k
  induction k with
  | zero =>
    intro s
    refine ⟨fun _ i h1 h2 => absurd h2 (by omega), fun b hb => ?_⟩
    simp [List.range'] at hb
  | succ k ih =>
    intro s
    have hr : List.range' s (k + 1) = s :: List.range' (s + 1) k := by
      simp [List.range'_succ]
    constructor
    · intro hnone i h1 h2
      rw [hr] at hnone
      cases hp : p s with
      | false =>
        rw [List.find?_cons_of_neg _ (by simp [hp])] at hnone
        rcases Nat.eq_or_lt_of_le h1 with he | hl
        · exact he ▸ hp
        · exact (ih (s + 1)).1 hnone i hl (by omega)
      | true =>
        rw [List.find?_cons_of_pos _ hp] at hnone
        cases hnone
    · intro b hb
      rw [hr] at hb
      cases hp : p s with
      | true =>
        rw [List.find?_cons_of_pos _ hp] at hb
        have hbs : b = s := by cases hb; rfl
        subst hbs
        exact ⟨le_refl _, by omega, hp, fun i h1 h2 => absurd h2 (by omega)⟩
      | false =>
        rw [List.find?_cons_of_neg _ (by simp [hp])] at hb
        have h4 := (ih (s + 1)).2 b hb
        refine ⟨by omega, by omega, h4.2.2.1, fun i h1 h2 => ?_⟩
        rcases Nat.eq_or_lt_of_le h1 with he | hl
        · exact he ▸ hp
        · exact h4.2.2.2 i hl h2

/-! ## C1 — composite score bounds -/

/-- C1 counterexample: a trendline with 20 covered points, perfect fit
(r² = 1), a one-year span, a 45° angle and no penalties scores 7/5, so
the composite score is neither point-normalised by `min(1, points/10)`
nor clamped to `[0, 1]`. -/
theorem calculateScore_exceeds_one :
    calculateScore 1 20 365 45 0 0 = 7/5 ∧
    ¬ calculateScore 1 20 365 45 0 0 ≤ 1 := by
  constructor
  · norm_num [calculateScore]
  · norm_num [calculateScore]

/-- C1 (amended): the score is nonnegative and bounded by
`3/5 + points/25`; the `[0, 1]` bound only holds when at most 10 points
are covered, because the point-count component `points/10` is not
normalised and no final clamp exists. -/
theorem calculateScore_bounds (r2 : ℚ) (nPoints : ℕ) (length : ℤ)
    (angle prox vr : ℚ) (h0 : 0 ≤ r2) (h1 : r2 ≤ 1) (hl : 0 ≤ length) :
    0 ≤ calculateScore r2 nPoints length angle prox vr ∧
    calculateScore r2 nPoints length angle prox vr ≤ 3/5 + (nPoints : ℚ)/25 ∧
    (nPoints ≤ 10 → calculateScore r2 nPoints length angle prox vr ≤ 1) := by
  have hnl0 : (0 : ℚ) ≤ min 1 ((length : ℚ) / 365) :=
    le_min (by norm_num) (by positivity)
  have hnl1 : min 1 ((length : ℚ) / 365) ≤ 1 := min_le_left _ _
  have hna0 : (0 : ℚ) ≤ 1 - min (|angle - 45| / 45) 1 := by
    have := min_le_right (|angle - 45| / 45) 1
    linarith
  have hna1 : 1 - min (|angle - 45| / 45) 1 ≤ 1 := by
    have : (0 : ℚ) ≤ min (|angle - 45| / 45) 1 := le_min (by positivity) (by norm_num)
    linarith
  have hp0 : (0 : ℚ) ≤ (nPoints : ℚ) := Nat.cast_nonneg _
  have hbase0 : (0 : ℚ) ≤ (1/10) * r2 + (2/5) * ((nPoints : ℚ) / 10) +
      (3/10) * min 1 ((length : ℚ) / 365) + (1/5) * (1 - min (|angle - 45| / 45) 1) := by
    nlinarith
  have hbase1 : (1/10) * r2 + (2/5) * ((nPoints : ℚ) / 10) +
      (3/10) * min 1 ((length : ℚ) / 365) + (1/5) * (1 - min (|angle - 45| / 45) 1) ≤
      3/5 + (nPoints : ℚ)/25 := by
    nlinarith
  unfold calculateScore
  split_ifs with hv hx hy hz hw hu <;>
    refine ⟨by linarith, by linarith, fun hn => ?_⟩ <;>
    have hc : (nPoints : ℚ) ≤ 10 := by exact_mod_cast hn
  all_goals linarith

/-- C1 witness: the amended bounds at a concrete, fully valid metric
vector. -/
theorem calculateScore_bounds_witness : 0 ≤ calculateScore 1 3 10 45 0 0 :=
  (calculateScore_bounds 1 3 10 45 0 0 (by norm_num) (by norm_num) (by norm_num)).1

/-! ## C2 — solid-segment end -/

/-- C2 counterexample: a resistance line whose covered pivots span bars
0 to 20 of a 26-bar series (indices 0–25), with the first decisive
breach at bar 25, stores `segment_solid_end_index = 20` — the break
bound is capped at the last covered pivot — and not 25 as claimed. -/
theorem solidEnd_capped_cex :
    firstBreak true (List.replicate 26 10) (List.replicate 26 0)
      (List.replicate 25 10 ++ [12]) 0 = some 25 ∧
    ransacSolidEnd true (List.replicate 26 10) (List.replicate 26 0)
      (List.replicate 25 10 ++ [12]) [0, 20] = 20 ∧
    (20 : ℕ) ≠ 25 := by
  refine ⟨by with_unfolding_all decide, by with_unfolding_all decide, by decide⟩

/-- C2 (amended): when `_first_break` finds a bar it is the least breach
position at or after the segment start, a miss means the whole tail is
breach-free, and the stored solid end is `min(seg_to, max inlier
index)` — capped by the last covered pivot, hence never beyond either
bound. -/
theorem firstBreak_solidEnd_spec (isRes : Bool) (line lowCol highCol : List ℚ)
    (start : ℕ) :
    (∀ b, firstBreak isRes line lowCol highCol start = some b →
      start ≤ b ∧ b < line.length ∧
      breachAt isRes line lowCol highCol b = true ∧
      ∀ i, start ≤ i → i < b → breachAt isRes line lowCol highCol i = false) ∧
    (firstBreak isRes line lowCol highCol start = none →
      ∀ i, start ≤ i → i < line.length →
        breachAt isRes line lowCol highCol i = false) ∧
    (∀ inIdx : List ℕ,
      ransacSolidEnd isRes line lowCol highCol inIdx ≤
        qToNat ((inIdx.map (Nat.cast (R := ℚ))).foldr max ((inIdx.headD 0 : ℕ) : ℚ))) := by
  have hspec := find?_range'_spec (breachAt isRes line lowCol highCol)
    (line.length - start) start
  refine ⟨fun b hb => ?_, fun hn i h1 h2 => ?_, fun inIdx => min_le_right _ _⟩
  · have h := hspec.2 b hb
    exact ⟨h.1, by omega, h.2.2.1, h.2.2.2⟩
  · rcases Nat.lt_or_ge i start with hlt | hge
    · omega
    · exact hspec.1 hn i hge (by omega)

/-- C2 witness: the characterisation applied at the counterexample
series — the reported break bar 25 really is a decisive breach. -/
theorem firstBreak_solidEnd_witness :
    breachAt true (List.replicate 26 10) (List.replicate 26 0)
      (List.replicate 25 10 ++ [12]) 25 = true :=
  ((firstBreak_solidEnd_spec true (List.replicate 26 10) (List.replicate 26 0)
    (List.replicate 25 10 ++ [12]) 0).1 25 (by with_unfolding_all decide)).2.2.1

/-! ## C3 — envelope invariant -/

/-- C3 counterexample: a resistance candidate fitted on the covered
pivots (0, 10) and (2, 10) of the high column [10, 4, 10] keeps slope 0
and envelope intercept 10, yet at bar 1 — inside the anchor span but not
a covered point — the line (price 10) sits above the bar's high (4), so
`line_price(i) ≤ high[i]` fails on the anchor span. -/
theorem envelope_span_cex :
    olsSlope [0, 2] [10, 10] = 0 ∧
    envelopeIntercept true (olsSlope [0, 2] [10, 10]) [0, 2] [10, 10] = 10 ∧
    ¬ (∀ i : ℕ, i ≤ 2 →
        olsSlope [0, 2] [10, 10] * (i : ℚ) +
          envelopeIntercept true (olsSlope [0, 2] [10, 10]) [0, 2] [10, 10] ≤
        priceAt [10, 4, 10] i) := by
  refine ⟨by with_unfolding_all decide, by with_unfolding_all decide, fun h => ?_⟩
  have h1 := h 1 (by omega)
  have h2 : olsSlope [0, 2] [10, 10] * ((1 : ℕ) : ℚ) +
      envelopeIntercept true (olsSlope [0, 2] [10, 10]) [0, 2] [10, 10] = 10 := by
    with_unfolding_all decide
  rw [h2] at h1
  have h3 : priceAt [10, 4, 10] 1 = 4 := by with_unfolding_all decide
  rw [h3] at h1
  norm_num at h1

/-- C3 (amended): envelope adjustment preserves the fitted slope and
sets the intercept to the min (resistance) or max (support) of
`y_k - m * x_k` over the covered points, so the line lies at or below
(resp. at or above) every covered point's price — but only at the
covered points, not at every bar of the anchor span. -/
theorem envelope_covered_points (m : ℚ) (xs ys : List ℚ) (k : ℕ)
    (hk : k < xs.length) (hk2 : k < ys.length) :
    m * xs.getD k 0 + envelopeIntercept true m xs ys ≤ ys.getD k 0 ∧
    ys.getD k 0 ≤ m * xs.getD k 0 + envelopeIntercept false m xs ys ∧
    ∀ isRes, (fitEnvelope isRes xs ys).1 = olsSlope xs ys := by
  have hmem : ys.getD k 0 - m * xs.getD k 0 ∈
      List.zipWith (fun x yv => yv - m * x) xs ys := by
    have hkz : k < (List.zipWith (fun x yv => yv - m * x) xs ys).length := by
      rw [List.length_zipWith]; omega
    have hget : (List.zipWith (fun x yv => yv - m * x) xs ys).get ⟨k, hkz⟩ =
        ys.getD k 0 - m * xs.getD k 0 := by
      rw [List.get_eq_getElem, List.getElem_zipWith]
      rw [List.getD_eq_getElem ys 0 hk2, List.getD_eq_getElem xs 0 hk]
    exact hget ▸ List.get_mem _ k hkz
  refine ⟨?_, ?_, fun isRes => rfl⟩
  · have h1 : minListQ (List.zipWith (fun x yv => yv - m * x) xs ys) ≤
        ys.getD k 0 - m * xs.getD k 0 := minListQ_le hmem
    have h2 : envelopeIntercept true m xs ys =
        minListQ (List.zipWith (fun x yv => yv - m * x) xs ys) := rfl
    rw [h2]; linarith
  · have h1 : ys.getD k 0 - m * xs.getD k 0 ≤
        maxListQ (List.zipWith (fun x yv => yv - m * x) xs ys) := le_maxListQ hmem
    have h2 : envelopeIntercept false m xs ys =
        maxListQ (List.zipWith (fun x yv => yv - m * x) xs ys) := rfl
    rw [h2]; linarith

/-- C3 witness: the covered-point envelope inequality at the
counterexample's first covered pivot. -/
theorem envelope_covered_points_witness :
    (0 : ℚ) * [(0 : ℚ), 2].getD 0 0 + envelopeIntercept true 0 [0, 2] [10, 10] ≤
      [(10 : ℚ), 10].getD 0 0 :=
  (envelope_covered_points 0 [0, 2] [10, 10] 0 (by decide) (by decide)).1

/-! ## C4 — pivot dedup -/

/-- Separation relation guaranteed by the `near_any` dedup gate: the
later pivot `q` is at relative distance at least `frac` from the earlier
pivot `p`, with the denominator floored at 1e-9. -/
def dedupSep (frac : ℚ) (p q : PivotRec) : Prop :=
  frac ≤ |q.px - p.px| / max p.px epsQ

/-- Appending a pivot that passed the `near_any` gate preserves pairwise
separation. -/
lemma dedupSep_append {frac : ℚ} {acc : List PivotRec} (r : PivotRec)
    (h : List.Pairwise (dedupSep frac) acc)
    (hnear : nearAnyQ frac r.px (recPrices acc) = false) :
    List.Pairwise (dedupSep frac) (acc ++ [r]) := by
  rw [List.pairwise_append]
  refine ⟨h, List.pairwise_singleton _ _, fun a ha b hb => ?_⟩
  have hb' : b = r := by simpa using hb
  rw [hb']
  have hmem : a.px ∈ recPrices acc := List.mem_map_of_mem _ ha
  have hnot : ¬ (|r.px - a.px| / max a.px epsQ < frac) := by
    intro hlt
    have : nearAnyQ frac r.px (recPrices acc) = true :=
      List.any_eq_true.mpr ⟨a.px, hmem, decide_eq_true hlt⟩
    rw [this] at hnear
    cases hnear
  exact not_lt.mp hnot

/-- The high pass preserves pairwise separation. -/
lemma pivotHighPass_pairwise (s : PriceSeries) (frac : ℚ) (lb : ℕ)
    (acc : List PivotRec) (i : ℕ) (h : List.Pairwise (dedupSep frac) acc) :
    List.Pairwise (dedupSep frac) (pivotHighPass s frac lb acc i) := by
  unfold pivotHighPass
  split_ifs with h1
  · simp only [Bool.and_eq_true, Bool.not_eq_true'] at h1
    exact dedupSep_append _ h h1.2
  · exact h

/-- One bar step preserves pairwise separation of the accepted pivots. -/
lemma pivotStep_pairwise (s : PriceSeries) (frac : ℚ) (lb : ℕ)
    (acc : List PivotRec) (i : ℕ) (h : List.Pairwise (dedupSep frac) acc) :
    List.Pairwise (dedupSep frac) (pivotStep s frac lb acc i) := by
  have hh := pivotHighPass_pairwise s frac lb acc i h
  unfold pivotStep
  split_ifs with h1
  · simp only [Bool.and_eq_true, Bool.not_eq_true'] at h1
    exact dedupSep_append _ hh h1.2
  · exact hh

/-- Folding bar steps preserves pairwise separation. -/
lemma pivotFold_pairwise (s : PriceSeries) (frac : ℚ) (lb : ℕ) :
    ∀ (l : List ℕ) (acc : List PivotRec), List.Pairwise (dedupSep frac) acc →
      List.Pairwise (dedupSep frac) (l.foldl (pivotStep s frac lb) acc) := by
  intro l
  induction l with
  | nil => exact fun acc h => h
  | cons a l ih =>
    intro acc h
    exact ih _ (pivotStep_pairwise s frac lb acc a h)

/-- C4 (amended): within one `_find_pivots` pass, every later-accepted
pivot lies at relative distance at least `dedup_frac` from every
earlier-accepted pivot of either kind; the guarantee is per pass only,
since `_collect_pivots` pools the per-lookback results without
re-applying the dedup rule. -/
theorem pivotScan_dedup_pairwise (s : PriceSeries) (frac : ℚ) (lb : ℕ) :
    List.Pairwise (dedupSep frac) (pivotScan s frac lb) :=
  pivotFold_pairwise s frac lb _ [] (List.Pairwise.nil)

/-- C4 counterexample: with lookbacks `[1, 2]`, the bar-2 high pivot of
the series `[1, 1, 9, 1, 1, 1, 1]` is found by both windows and the
pooled high list keeps both copies — price distance 0, far inside
`dedup_frac = 0.005` — so the pooled working set violates the dedup
invariant. -/
theorem pooled_pivots_dup_cex :
    (collectPivots ⟨[1, 1, 9, 1, 1, 1, 1], [0, 0, 0, 0, 0, 0, 0],
        [0, 0, 0, 0, 0, 0, 0]⟩ (1/200) [1, 2]).1 = [(2, 9), (2, 9)] ∧
    |(9 : ℚ) - 9| / max 9 epsQ < 1/200 := by
  refine ⟨by with_unfolding_all decide, by with_unfolding_all decide⟩

/-! ## C5 — determinism and seedability -/

/-- C5 counterexample: with series, configuration (and hence any
purported seed — `_ransac_line` calls `np.random.default_rng()` with no
seed argument) held fixed, two invocations whose ambient generators draw
different sample pairs return different lines. -/
theorem ransac_unseeded_cex :
    ransacLine [0, 1, 2] [0, 1, 5] 1 (1/100) 2 [(0, 1)] ≠
      ransacLine [0, 1, 2] [0, 1, 5] 1 (1/100) 2 [(1, 2)] := by
  with_unfolding_all decide

/-- C5 (amended): the computation is deterministic in the drawn samples:
two invocations agree whenever their ambient generators produce the same
first `trials` index pairs (only that prefix is consumed). -/
theorem ransacLine_prefix_determinism (x y : List ℚ) (trials : ℕ) (tol : ℚ)
    (minInliers : ℕ) (d1 d2 : List (ℕ × ℕ)) (h : d1.take trials = d2.take trials) :
    ransacLine x y trials tol minInliers d1 = ransacLine x y trials tol minInliers d2 := by
  unfold ransacLine
  rw [h]

/-- C5 witness: prefix-agreement determinism at distinct streams sharing
their first draw. -/
theorem ransacLine_prefix_determinism_witness :
    ransacLine [0, 1, 2] [0, 1, 5] 1 (1/100) 2 [(0, 1)] =
      ransacLine [0, 1, 2] [0, 1, 5] 1 (1/100) 2 [(0, 1), (9, 9)] :=
  ransacLine_prefix_determinism [0, 1, 2] [0, 1, 5] 1 (1/100) 2 _ _ rfl

/-! ## C6 — duplicate suppression -/

/-- C6 counterexample: two candidates with the SAME covered point set —
overlap fraction 1, far above 10% — collapse to one, but the survivor is
the earlier-discovered line with score 1/2, not the later, higher-scoring
line with score 9/10. -/
theorem analyzeKept_keeps_first_cex :
    analyzeKept 0 [⟨{(0, 0), (1, 1), (2, 2)}, 1/2⟩,
        ⟨{(0, 0), (1, 1), (2, 2)}, 9/10⟩] =
      [⟨{(0, 0), (1, 1), (2, 2)}, 1/2⟩] ∧
    (1/10 : ℚ) < overlapFrac ⟨{(0, 0), (1, 1), (2, 2)}, 9/10⟩
        ⟨{(0, 0), (1, 1), (2, 2)}, 1/2⟩ ∧
    (1/2 : ℚ) < 9/10 := by
  refine ⟨by with_unfolding_all decide, by with_unfolding_all decide, by norm_num⟩

/-- The kept-list invariant of the `analyze` loop: pairwise overlap at
most 10% (measured against the later line's point set) and every kept
score above the threshold. -/
lemma analyzeFold_inv (minScore : ℚ) :
    ∀ (cands kept : List Cand),
      List.Pairwise (fun a b => overlapFrac b a ≤ 1/10) kept →
      (∀ tl ∈ kept, minScore < tl.score) →
      List.Pairwise (fun a b => overlapFrac b a ≤ 1/10)
        (cands.foldl
          (fun kept tl =>
            if kept.all (fun e => decide (overlapFrac tl e ≤ 1/10)) then
              (if decide (minScore < tl.score) then kept ++ [tl] else kept)
            else kept) kept) ∧
      ∀ tl ∈ cands.foldl
          (fun kept tl =>
            if kept.all (fun e => decide (overlapFrac tl e ≤ 1/10)) then
              (if decide (minScore < tl.score) then kept ++ [tl] else kept)
            else kept) kept, minScore < tl.score := by
  intro cands
  induction cands with
  | nil => exact fun kept h1 h2 => ⟨h1, h2⟩
  | cons tl cands ih =>
    intro kept h1 h2
    simp only [List.foldl_cons]
    split_ifs with hall hsc
    · refine ih _ ?_ ?_
      · rw [List.pairwise_append]
        refine ⟨h1, List.pairwise_singleton _ _, fun a ha b hb => ?_⟩
        have hb' : b = tl := by simpa using hb
        subst hb'
        have := List.all_eq_true.mp hall a ha
        exact of_decide_eq_true this
      · intro u hu
        rcases List.mem_append.mp hu with hl | hr
        · exact h2 u hl
        · have hu' : u = tl := by simpa using hr
          subst hu'
          exact of_decide_eq_true hsc
    · exact ih _ h1 h2
    · exact ih _ h1 h2

/-- C6 (amended): among overlapping duplicates the EARLIER-discovered
line survives regardless of score, the overlap fraction being measured
against the newer line's point set; consequently the final kept list is
pairwise non-overlapping (≤ 10%) and every kept line beats the score
threshold. -/
theorem analyzeKept_earlier_wins (minScore : ℚ) (cands : List Cand) :
    List.Pairwise (fun a b => overlapFrac b a ≤ 1/10) (analyzeKept minScore cands) ∧
    ∀ tl ∈ analyzeKept minScore cands, minScore < tl.score :=
  analyzeFold_inv minScore cands [] List.Pairwise.nil (by intro tl h; cases h)

/-- C6 witness: the invariant at a concrete candidate list. -/
theorem analyzeKept_earlier_wins_witness :
    List.Pairwise (fun a b => overlapFrac b a ≤ 1/10)
      (analyzeKept 0 [⟨{(0, 0)}, 1⟩]) :=
  (analyzeKept_earlier_wins 0 [⟨{(0, 0)}, 1⟩]).1

/-! ## C7 — a bar as both high and low pivot -/

/-- C7 counterexample: bar 1 of highs `[5, 10, 5]` / lows `[4, 1, 4]` is
a strict local max AND a strict local min, and since its low (1) is not
within `dedup_frac` of its high (10), one pass accepts the same bar as
both a high pivot and a low pivot. -/
theorem findPivots_both_kinds_cex :
    findPivots ⟨[5, 10, 5], [4, 1, 4], [0, 0, 0]⟩ (1/200) 1 = ([(1, 10)], [(1, 1)]) ∧
    1 ∈ ((findPivots ⟨[5, 10, 5], [4, 1, 4], [0, 0, 0]⟩ (1/200) 1).1.map Prod.fst) ∧
    1 ∈ ((findPivots ⟨[5, 10, 5], [4, 1, 4], [0, 0, 0]⟩ (1/200) 1).2.map Prod.fst) := by
  refine ⟨by with_unfolding_all decide, by with_unfolding_all decide,
    by with_unfolding_all decide⟩

/-- C7 (amended): the high test does run before the low test, but
acceptance of the high does not skip the low test; the low is suppressed
only through the dedup gate — when the bar's low is within `dedup_frac`
of the just-accepted high (or any earlier pivot), the step adds the high
alone. -/
theorem pivotStep_high_blocks_near_low (s : PriceSeries) (frac : ℚ) (lb : ℕ)
    (acc : List PivotRec) (i : ℕ)
    (hHi : (isLocalMax s.high i lb &&
      !nearAnyQ frac (priceAt s.high i) (recPrices acc)) = true)
    (hNear : |priceAt s.low i - priceAt s.high i| / max (priceAt s.high i) epsQ < frac) :
    pivotStep s frac lb acc i = acc ++ [⟨true, i, priceAt s.high i⟩] := by
  have ha : pivotHighPass s frac lb acc i = acc ++ [⟨true, i, priceAt s.high i⟩] := by
    unfold pivotHighPass
    rw [if_pos hHi]
  have h2 : nearAnyQ frac (priceAt s.low i)
      (recPrices (acc ++ [⟨true, i, priceAt s.high i⟩])) = true := by
    refine List.any_eq_true.mpr ⟨priceAt s.high i, ?_, decide_eq_true hNear⟩
    unfold recPrices
    rw [List.map_append]
    exact List.mem_append.mpr (Or.inr (by simp))
  unfold pivotStep
  rw [ha, if_neg]
  rw [h2]
  simp

/-- C7 witness: the suppression at a concrete bar whose low (9.98) is a
strict local min but within 0.5% of its accepted high (10). -/
theorem pivotStep_high_blocks_witness :
    pivotStep ⟨[5, 10, 5], [12, 499/50, 12], [0, 0, 0]⟩ (1/200) 1 [] 1 =
      [] ++ [⟨true, 1, priceAt [5, 10, 5] 1⟩] :=
  pivotStep_high_blocks_near_low ⟨[5, 10, 5], [12, 499/50, 12], [0, 0, 0]⟩
    (1/200) 1 [] 1 (by with_unfolding_all decide) (by with_unfolding_all decide)

/-! ## C8 — degenerate geometry -/

/-- C8 counterexample: `_point_on_line` divides by the pivot price with
no guard, so a zero price raises `ZeroDivisionError` (modelled as
`Except.error`) instead of skipping the pair. -/
theorem pointOnLine_zero_price_cex :
    pointOnLine (1/1000) 1 1 0 0 = Except.error () ∧
    ∀ b : Bool, pointOnLine (1/1000) 1 1 0 0 ≠ Except.ok b := by
  have h1 : pointOnLine (1/1000) 1 1 0 0 = Except.error () := by
    simp [pointOnLine]
  refine ⟨h1, fun b h => ?_⟩
  rw [h1] at h
  exact Except.noConfusion h

/-- C8 (amended): equal timestamps are skipped by
`_calculate_line_parameters` returning `(None, None)` and equal sampled
x-values are skipped by the RANSAC trial loop, both without raising; a
NONZERO price always lets `_point_on_line` return a boolean — only a
zero pivot price raises instead of being skipped. -/
theorem degenerate_pair_skipped (t p1 p2 tol slope intercept x price : ℚ) :
    calculateLineParameters t p1 t p2 = none ∧
    (price ≠ 0 → ∃ b, pointOnLine tol slope intercept x price = Except.ok b) ∧
    (∀ xs ys : List ℚ, ∀ i j : ℕ, xs.getD i 0 = xs.getD j 0 →
      trialLine xs ys (i, j) = none) := by
  refine ⟨?_, fun hp => ?_, fun xs ys i j hij => ?_⟩
  · simp [calculateLineParameters]
  · exact ⟨decide (|(slope * x + intercept - price) / price| ≤ tol),
      by simp [pointOnLine, hp]⟩
  · simp only [trialLine]
    rw [if_pos hij.symm]

/-- C8 witness: an equal-timestamp pair is skipped and a nonzero price
yields a boolean, at concrete inputs. -/
theorem degenerate_pair_skipped_witness :
    calculateLineParameters 0 1 0 2 = none ∧
    ∃ b, pointOnLine (1/100) 1 0 3 2 = Except.ok b :=
  ⟨(degenerate_pair_skipped 0 1 2 (1/100) 1 0 3 2).1,
   (degenerate_pair_skipped 0 1 2 (1/100) 1 0 3 2).2.1 (by norm_num)⟩

/-! ## C9 — the constructor does not mutate the caller's DataFrame -/

/-- C9: construction copies the input DataFrame (`self.df = df.copy()`)
and the whole `pivot_ransac` computation only reads that copy, so the
caller's cell is untouched: after `__init__` the caller's reference
still yields the original series, the engine holds a DIFFERENT
reference, and that reference holds an equal value. -/
theorem trendlineInit_preserves_caller_df (st : Store) (r : ℕ) (cfg : TLConfig)
    (draws : List (ℕ × ℕ)) (hr : r < st.cells.length) :
    (trendlineInit st r cfg draws).1.cells.getD r ⟨[], [], []⟩ =
      st.cells.getD r ⟨[], [], []⟩ ∧
    (trendlineInit st r cfg draws).2.dfRef ≠ r ∧
    (trendlineInit st r cfg draws).1.cells.getD
        ((trendlineInit st r cfg draws).2.dfRef) ⟨[], [], []⟩ =
      st.cells.getD r ⟨[], [], []⟩ := by
  refine ⟨?_, ?_, ?_⟩
  · simp only [trendlineInit, dfCopy]
    exact List.getD_append _ _ _ _ hr
  · simp only [trendlineInit, dfCopy]
    omega
  · simp only [trendlineInit, dfCopy]
    rw [List.getD_eq_getElem?_getD, List.getElem?_append_right (le_refl _)]
    simp

/-- C9 witness: the frame property at a concrete one-cell heap. -/
theorem trendlineInit_preserves_caller_df_witness :
    (trendlineInit ⟨[⟨[1], [0], [0]⟩]⟩ 0 ⟨[], 0, 0, 0, 0, 0, 0, 0, false⟩ []).1.cells.getD
        0 ⟨[], [], []⟩ =
      (⟨[⟨[1], [0], [0]⟩]⟩ : Store).cells.getD 0 ⟨[], [], []⟩ :=
  (trendlineInit_preserves_caller_df ⟨[⟨[1], [0], [0]⟩]⟩ 0
    ⟨[], 0, 0, 0, 0, 0, 0, 0, false⟩ [] (by decide)).1

/-! ## C10 — RANSAC returns the OLS refit over the unrevised mask -/

/-- Invariant of the RANSAC trial loop: the stored best, when present,
is a sampled 2-point line together with exactly its inlier mask and that
mask's count, and the stored count dominates the inlier count of every
valid trial processed so far. -/
lemma ransacBest_spec (x y : List ℚ) (tol : ℚ) :
    ∀ ds : List (ℕ × ℕ),
      ((ransacBest x y tol ds).best = none → (ransacBest x y tol ds).cnt = 0) ∧
      (∀ m c mask, (ransacBest x y tol ds).best = some (m, c, mask) →
        mask = inlierMask x y m c tol ∧
        (ransacBest x y tol ds).cnt = countTrue mask ∧
        ∃ d ∈ ds, trialLine x y d = some (m, c)) ∧
      (∀ d ∈ ds, ∀ m' c', trialLine x y d = some (m', c') →
        countTrue (inlierMask x y m' c' tol) ≤ (ransacBest x y tol ds).cnt) := by
  intro ds
  induction ds using List.reverseRecOn with
  | nil =>
    refine ⟨fun _ => rfl, fun m c mask h => ?_, fun d hd => ?_⟩
    · exact absurd h (by simp [ransacBest])
    · cases hd
  | append_singleton l d ih =>
    have hfold : ransacBest x y tol (l ++ [d]) =
        ransacStep x y tol (ransacBest x y tol l) d := by
      unfold ransacBest
      rw [List.foldl_append]
      rfl
    rcases htr : trialLine x y d with _ | ⟨m, c⟩
    · have hstep : ransacStep x y tol (ransacBest x y tol l) d =
          ransacBest x y tol l := by
        unfold ransacStep
        rw [htr]
      rw [hfold, hstep]
      refine ⟨ih.1, fun m c mask h => ?_, fun d' hd' m' c' h' => ?_⟩
      · obtain ⟨h1, h2, dd, hdd, hdt⟩ := ih.2.1 m c mask h
        exact ⟨h1, h2, dd, List.mem_append.mpr (Or.inl hdd), hdt⟩
      · rcases List.mem_append.mp hd' with hl | hone
        · exact ih.2.2 d' hl m' c' h'
        · have hde : d' = d := by simpa using hone
          rw [hde, htr] at h'
          cases h'
    · have hstep : ransacStep x y tol (ransacBest x y tol l) d =
          if (ransacBest x y tol l).cnt < countTrue (inlierMask x y m c tol) then
            ⟨some (m, c, inlierMask x y m c tol), countTrue (inlierMask x y m c tol)⟩
          else ransacBest x y tol l := by
        unfold ransacStep
        rw [htr]
      rw [hfold, hstep]
      by_cases hlt : (ransacBest x y tol l).cnt < countTrue (inlierMask x y m c tol)
      · rw [if_pos hlt]
        refine ⟨fun h => absurd h (by simp), fun m0 c0 mask0 h => ?_,
          fun d' hd' m' c' h' => ?_⟩
        · have he := Option.some.inj h
          simp only [Prod.mk.injEq] at he
          obtain ⟨rfl, rfl, rfl⟩ := he
          exact ⟨rfl, rfl, d, List.mem_append.mpr (Or.inr (by simp)), htr⟩
        · rcases List.mem_append.mp hd' with hl | hone
          · exact le_trans (ih.2.2 d' hl m' c' h') (le_of_lt hlt)
          · have hde : d' = d := by simpa using hone
            rw [hde, htr] at h'
            have he := Option.some.inj h'
            simp only [Prod.mk.injEq] at he
            obtain ⟨rfl, rfl⟩ := he
            exact le_refl _
      · rw [if_neg hlt]
        refine ⟨ih.1, fun m0 c0 mask0 h => ?_, fun d' hd' m' c' h' => ?_⟩
        · obtain ⟨h1, h2, dd, hdd, hdt⟩ := ih.2.1 m0 c0 mask0 h
          exact ⟨h1, h2, dd, List.mem_append.mpr (Or.inl hdd), hdt⟩
        · rcases List.mem_append.mp hd' with hl | hone
          · exact ih.2.2 d' hl m' c' h'
          · have hde : d' = d := by simpa using hone
            rw [hde, htr] at h'
            have he := Option.some.inj h'
            simp only [Prod.mk.injEq] at he
            obtain ⟨rfl, rfl⟩ := he
            exact not_lt.mp hlt

/-- C10: whenever `_ransac_line` returns `(m, c, mask)`, `mask` is the
inlier mask of the best-counted sampled 2-point trial, `m` is the OLS
slope over exactly the masked points, `c` is the mean of `y - m*x` over
them, with at least `min_inliers` inliers; and the mask is NOT
re-evaluated against the refined line — concretely, on pivots
`(0,0), (1,1), (2,2.02)` with `tol = 1%` the returned full mask contains
point 0 whose residual against the refined line is 1 > tol. -/
theorem ransacLine_refit_spec :
    (∀ x y : List ℚ, ∀ trials : ℕ, ∀ tol : ℚ, ∀ minI : ℕ,
      ∀ draws : List (ℕ × ℕ), ∀ m c : ℚ, ∀ mask : List Bool,
      ransacLine x y trials tol minI draws = some (m, c, mask) →
      ∃ m0 c0 : ℚ,
        (∃ d ∈ draws.take trials, trialLine x y d = some (m0, c0)) ∧
        mask = inlierMask x y m0 c0 tol ∧
        (∀ d ∈ draws.take trials, ∀ m' c' : ℚ,
          trialLine x y d = some (m', c') →
          countTrue (inlierMask x y m' c' tol) ≤ countTrue mask) ∧
        minI ≤ countTrue mask ∧
        m = olsSlope (maskSelect mask x) (maskSelect mask y) ∧
        c = meanQ (List.zipWith (fun yv xv => yv - m * xv)
              (maskSelect mask y) (maskSelect mask x))) ∧
    (ransacLine [0, 1, 2] [0, 1, 101/50] 1 (1/100) 3 [(0, 1)] =
        some (101/100, -1/300, [true, true, true]) ∧
      (1/100 : ℚ) < residQ (101/100) (-1/300) 0 0) := by
  constructor
  · intro x y trials tol minI draws m c mask h
    unfold ransacLine ransacLineCore at h
    by_cases h2 : x.length < 2
    · rw [if_pos h2] at h
      cases h
    · rw [if_neg h2] at h
      by_cases h3 : (ransacBest x y tol (draws.take trials)).cnt < minI
      · rw [if_pos h3] at h
        cases h
      · rw [if_neg h3] at h
        rcases hb : (ransacBest x y tol (draws.take trials)).best
          with _ | ⟨m0, c0, mask0⟩
        · rw [hb] at h
          cases h
        · rw [hb] at h
          have he := Option.some.inj h
          simp only [ransacRefine, Prod.mk.injEq] at he
          obtain ⟨hm, hc, hmk⟩ := he
          have hspec := ransacBest_spec x y tol (draws.take trials)
          obtain ⟨hmask, hcnt, dd, hdd, hdt⟩ := hspec.2.1 m0 c0 mask0 hb
          have hbest := hspec.2.2
          refine ⟨m0, c0, ⟨dd, hdd, hdt⟩, ?_, ?_, ?_, ?_, ?_⟩
          · rw [← hmk]
            exact hmask
          · intro d' hd' m' c' h'
            rw [← hmk, ← hcnt]
            exact hbest d' hd' m' c' h'
          · rw [← hmk, ← hcnt]
            exact not_lt.mp h3
          · rw [← hmk]
            exact hm.symm
          · rw [← hmk, ← hm]
            exact hc.symm
  · constructor
    · with_unfolding_all decide
    · with_unfolding_all decide

/-- C10 witness: the characterisation applied at the concrete call of
its second conjunct — the refined slope is the OLS slope over the masked
pivots. -/
theorem ransacLine_refit_witness :
    ∃ m0 c0 : ℚ, [true, true, true] = inlierMask [0, 1, 2] [0, 1, 101/50] m0 c0 (1/100) := by
  obtain ⟨m0, c0, _, hmask, _⟩ := ransacLine_refit_spec.1 [0, 1, 2] [0, 1, 101/50]
    1 (1/100) 3 [(0, 1)] (101/100) (-1/300) [true, true, true]
    ransacLine_refit_spec.2.1
  exact ⟨m0, c0, hmask⟩

end QuantTrad
